import Mathlib

/-!
Verification of the Personal Finance Tracker (single-file C program,
src/financetracker.c) against its natural-language specification.

The program state is a bounded array of transactions; we model it as a
`List Transaction` (the observable prefix txs[0..txCount-1]).  C `int` is
modelled as `Int`, C `double` as `Rat` (exact rational arithmetic; the
format/parse development only relies on values that are exactly
representable, and comments note where rounding of `%.2f` matters).
C strings are modelled as `List Char`.  The persistence file is a list of
lines; the terminating newline written by `fprintf` and read back by
`fgets` is modelled by end-of-line (the `%127[^\n]` scanset stops both at
a newline and at end of input, with the same observable result).
-/

namespace FinanceTracker

/-- C constant `MAX_TRANSACTIONS` (capacity of the store). -/
def MAX_TRANSACTIONS : Nat := 2000

/-- C constant `STR_LEN` (category buffer size, so at most 63 characters). -/
def STR_LEN : Nat := 64

/-- C constant `NOTE_LEN` (note buffer size, so at most 127 characters). -/
def NOTE_LEN : Nat := 128

/-- `TxType` enum: `INCOME = 0`, `EXPENSE = 1`. -/
inductive TxType where
  | INCOME
  | EXPENSE
deriving DecidableEq

/-- The integer value of the enum, as stored/printed by the C program. -/
def typeCode : TxType → Int
  | TxType.INCOME => 0
  | TxType.EXPENSE => 1

/-- The C `Transaction` struct. -/
structure Transaction where
  y : Int
  m : Int
  d : Int
  type : TxType
  category : List Char
  amount : Rat
  note : List Char
deriving DecidableEq

/-- The `mdays` array of `valid_date`, after the leap-year adjustment:
`{0,31,28(29),31,30,31,30,31,31,30,31,30,31}` indexed by month. -/
def mdays (leap : Bool) (m : Int) : Int :=
  if m = 1 then 31
  else if m = 2 then (if leap then 29 else 28)
  else if m = 3 then 31
  else if m = 4 then 30
  else if m = 5 then 31
  else if m = 6 then 30
  else if m = 7 then 31
  else if m = 8 then 31
  else if m = 9 then 30
  else if m = 10 then 31
  else if m = 11 then 30
  else if m = 12 then 31
  else 0

/-- C `valid_date`: year in 1900..3000, month in 1..12, day within the
month, with the Gregorian leap-year rule. -/
def valid_date (y m d : Int) : Bool :=
  if y < 1900 ∨ 3000 < y then false
  else if m < 1 ∨ 12 < m then false
  else
    let leap : Bool := decide ((y % 4 = 0 ∧ y % 100 ≠ 0) ∨ y % 400 = 0)
    if d < 1 ∨ mdays leap m < d then false
    else true

/- ----------------------- character / digit utilities ----------------- -/

/-- Decimal digit test, as in the C locale (`'0'` .. `'9'`). -/
def isDig (c : Char) : Bool := 48 ≤ c.toNat ∧ c.toNat ≤ 57

/-- C `isspace` in the C locale: space, \t, \n, \v, \f, \r. -/
def isSpc (c : Char) : Bool := c.toNat = 32 ∨ (9 ≤ c.toNat ∧ c.toNat ≤ 13)

/-- The character for a single decimal digit. -/
def digitChar (n : Nat) : Char := Char.ofNat (48 + n)

/-- Value of a string of decimal digits (most significant first). -/
def digitsVal (ds : List Char) : Nat :=
  ds.foldl (fun a c => 10 * a + (c.toNat - 48)) 0

/-- Skip leading C whitespace (done by the `%d` and `%lf` conversions). -/
def skipWs : List Char → List Char
  | [] => []
  | c :: cs => if isSpc c then skipWs cs else c :: cs

/-- Take the maximal leading run of decimal digits. -/
def takeDigits : List Char → List Char × List Char
  | [] => ([], [])
  | c :: cs =>
      if isDig c then
        let p := takeDigits cs
        (c :: p.1, p.2)
      else ([], c :: cs)

/-- Scanset matching `%w[^stop]`: take up to `w` characters different
from `stop`. -/
def takeScan (stop : Char) : Nat → List Char → List Char × List Char
  | 0, s => ([], s)
  | _ + 1, [] => ([], [])
  | w + 1, c :: cs =>
      if c = stop then ([], c :: cs)
      else
        let p := takeScan stop w cs
        (c :: p.1, p.2)

/- ----------------------- decimal printing (printf) ------------------- -/

/-- Digits of `n`, most significant first (empty for 0); fuel-based so
that it reduces in the kernel.  The fuel is always at least `n`. -/
def natReprAux : Nat → Nat → List Char
  | 0, _ => []
  | f + 1, n => if n = 0 then [] else natReprAux f (n / 10) ++ [digitChar (n % 10)]

/-- Decimal representation of a natural number, as printed by `%d`. -/
def natRepr (n : Nat) : List Char := if n = 0 then ['0'] else natReprAux n n

/-- Decimal representation of an integer, as printed by `%d`. -/
def intRepr (k : Int) : List Char :=
  if k < 0 then '-' :: natRepr (-k).toNat else natRepr k.toNat

/-- Two-digit zero-padded representation (the fractional part of `%.2f`). -/
def pad2 (n : Nat) : List Char := if n < 10 then '0' :: natRepr n else natRepr n

/-- `%.2f` output for a value whose doubled-scaled magnitude is the
natural number `n` (that is, for the value `n / 100`). -/
def formatAmount2Nat (n : Nat) : List Char :=
  natRepr (n / 100) ++ '.' :: pad2 (n % 100)

/-- C `printf("%.2f", q)`: round to the nearest hundredth and print with
exactly two digits after the point.  (For an IEEE double the rounding of
an exact decimal tie never arises, so the choice of tie-breaking is
unobservable; exact two-decimal values are printed exactly.) -/
def formatAmount2 (q : Rat) : List Char :=
  if q < 0 then '-' :: formatAmount2Nat (round (-q * 100)).toNat
  else formatAmount2Nat (round (q * 100)).toNat

/- ----------------------- sscanf conversions -------------------------- -/

/-- Match one literal character of the format string. -/
def expectChar (c : Char) : List Char → Option (List Char)
  | [] => none
  | x :: xs => if x = c then some xs else none

/-- Finish an integer conversion: fail if no digits were read. -/
def digitsToInt (sgn : Int) : List Char × List Char → Option (Int × List Char)
  | ([], _) => none
  | (ds, r) => some (sgn * (digitsVal ds : Int), r)

/-- The `%d` conversion of `sscanf`: skip whitespace, optional sign, at
least one decimal digit, maximal munch. -/
def parseIntConv (s0 : List Char) : Option (Int × List Char) :=
  match skipWs s0 with
  | [] => none
  | c :: cs =>
      if c = '-' then digitsToInt (-1) (takeDigits cs)
      else if c = '+' then digitsToInt 1 (takeDigits cs)
      else digitsToInt 1 (takeDigits (c :: cs))

/-- Finish a scanset conversion: fail if it matched no characters. -/
def scanOfPair : List Char × List Char → Option (List Char × List Char)
  | ([], _) => none
  | (xs, r) => some (xs, r)

/-- A `%w[^stop]` conversion: at least one character, at most `w`. -/
def parseScan (stop : Char) (w : Nat) (s : List Char) : Option (List Char × List Char) :=
  scanOfPair (takeScan stop w s)

/-- Optional fractional part `.digits` of a `%lf` conversion (consumes a
lone trailing dot, as `strtod` does). -/
def fracPart : List Char → List Char × List Char
  | [] => ([], [])
  | c :: cs => if c = '.' then takeDigits cs else ([], c :: cs)

/-- Exponent digits after a consumed `e`/`E`; if no digits follow, the
exponent marker is not consumed (`orig` is restored). -/
def expAfter (orig : List Char) (cs : List Char) : Int × List Char :=
  match cs with
  | [] => (0, orig)
  | c2 :: cs2 =>
      if c2 = '-' then
        match takeDigits cs2 with
        | ([], _) => (0, orig)
        | (ds, r) => (-(digitsVal ds : Int), r)
      else if c2 = '+' then
        match takeDigits cs2 with
        | ([], _) => (0, orig)
        | (ds, r) => ((digitsVal ds : Int), r)
      else
        match takeDigits (c2 :: cs2) with
        | ([], _) => (0, orig)
        | (ds, r) => ((digitsVal ds : Int), r)

/-- Optional exponent part of a `%lf` conversion. -/
def expPart : List Char → Int × List Char
  | [] => (0, [])
  | c :: cs => if c = 'e' ∨ c = 'E' then expAfter (c :: cs) cs else (0, c :: cs)

/-- Unsigned decimal `%lf` mantissa/exponent: `digits [. digits] [e[±]digits]`,
requiring at least one mantissa digit. -/
def parseUDouble (s : List Char) : Option (Rat × List Char) :=
  let p1 := takeDigits s
  let p2 := fracPart p1.2
  if p1.1 = [] ∧ p2.1 = [] then none
  else
    let e := expPart p2.2
    some (((digitsVal p1.1 : Rat) + (digitsVal p2.1 : Rat) / (10 : Rat) ^ p2.1.length)
            * (10 : Rat) ^ e.1, e.2)

/-- The `%lf` conversion of `sscanf` (decimal forms; the hexadecimal and
inf/nan forms accepted by `strtod` cannot be produced by this program's
serializer and do not occur in the claims). -/
def parseDouble (s0 : List Char) : Option (Rat × List Char) :=
  match skipWs s0 with
  | [] => none
  | c :: cs =>
      if c = '-' then
        match parseUDouble cs with
        | none => none
        | some (q, r) => some (-q, r)
      else if c = '+' then parseUDouble cs
      else parseUDouble (c :: cs)

/- ----------------------- load_from_file parsing ---------------------- -/

/-- Result of `sscanf(line, "%d|%d|%d|%d|%63[^|]|%lf|%127[^\n]", ...)`:
the number of successful conversions and the converted values (fields not
reached keep their zero-initialised values, as in the C code). -/
structure ScanResult where
  matched : Nat
  y : Int
  m : Int
  d : Int
  typeInt : Int
  category : List Char
  amount : Rat
  note : List Char
deriving DecidableEq

/-- The `sscanf` call of `load_from_file`, conversion by conversion. -/
def scanLine (line : List Char) : ScanResult :=
  match parseIntConv line with
  | none => ⟨0, 0, 0, 0, 0, [], 0, []⟩
  | some (y1, r1) =>
  match expectChar '|' r1 with
  | none => ⟨1, y1, 0, 0, 0, [], 0, []⟩
  | some r2 =>
  match parseIntConv r2 with
  | none => ⟨1, y1, 0, 0, 0, [], 0, []⟩
  | some (m1, r3) =>
  match expectChar '|' r3 with
  | none => ⟨2, y1, m1, 0, 0, [], 0, []⟩
  | some r4 =>
  match parseIntConv r4 with
  | none => ⟨2, y1, m1, 0, 0, [], 0, []⟩
  | some (d1, r5) =>
  match expectChar '|' r5 with
  | none => ⟨3, y1, m1, d1, 0, [], 0, []⟩
  | some r6 =>
  match parseIntConv r6 with
  | none => ⟨3, y1, m1, d1, 0, [], 0, []⟩
  | some (t1, r7) =>
  match expectChar '|' r7 with
  | none => ⟨4, y1, m1, d1, t1, [], 0, []⟩
  | some r8 =>
  match parseScan '|' 63 r8 with
  | none => ⟨4, y1, m1, d1, t1, [], 0, []⟩
  | some (cat, r9) =>
  match expectChar '|' r9 with
  | none => ⟨5, y1, m1, d1, t1, cat, 0, []⟩
  | some r10 =>
  match parseDouble r10 with
  | none => ⟨5, y1, m1, d1, t1, cat, 0, []⟩
  | some (amt, r11) =>
  match expectChar '|' r11 with
  | none => ⟨6, y1, m1, d1, t1, cat, amt, []⟩
  | some r12 =>
  match parseScan '\n' 127 r12 with
  | none => ⟨6, y1, m1, d1, t1, cat, amt, []⟩
  | some (nt, _) => ⟨7, y1, m1, d1, t1, cat, amt, nt⟩

/-- One iteration of the `load_from_file` loop body on one line: the line
yields a transaction exactly when at least 6 conversions succeeded, the
date is calendar-valid and the amount is nonnegative; the note defaults
to empty when only 6 conversions succeeded; every kind value other than
1 is loaded as INCOME. -/
def parseLine (line : List Char) : Option Transaction :=
  if 6 ≤ (scanLine line).matched then
    if valid_date (scanLine line).y (scanLine line).m (scanLine line).d = true
        ∧ 0 ≤ (scanLine line).amount then
      some ⟨(scanLine line).y, (scanLine line).m, (scanLine line).d,
            (if (scanLine line).typeInt = 1 then TxType.EXPENSE else TxType.INCOME),
            (scanLine line).category, (scanLine line).amount,
            (if (scanLine line).matched = 7 then (scanLine line).note else [])⟩
    else none
  else none

/-- The `load_from_file` read loop: `n` starts at 0 and each accepted
record is stored only while `n < MAX_TRANSACTIONS`. -/
def loadLoop : List (List Char) → List Transaction → List Transaction
  | [], acc => acc
  | line :: rest, acc =>
      match parseLine line with
      | none => loadLoop rest acc
      | some t =>
          loadLoop rest (if acc.length < MAX_TRANSACTIONS then acc ++ [t] else acc)

/-- The full parse of a file body (list of lines) by `load_from_file`. -/
def deserialize (lines : List (List Char)) : List Transaction := loadLoop lines []

/-- C `load_from_file`: `none` models `fopen` failing (the function
returns 0 before touching `txs`/`txCount`); on success the parsed records
replace the whole store (`txCount = n`). -/
def load_from_file (file : Option (List (List Char))) (store : List Transaction) :
    Bool × List Transaction :=
  match file with
  | none => (false, store)
  | some lines => (true, loadLoop lines [])

/- ----------------------- save_to_file -------------------------------- -/

/-- One output line of `save_to_file`:
`fprintf(f, "%d|%d|%d|%d|%s|%.2f|%s\n", ...)` without the newline. -/
def save_line (t : Transaction) : List Char :=
  intRepr t.y ++ '|' :: (intRepr t.m ++ '|' :: (intRepr t.d ++ '|' ::
    (intRepr (typeCode t.type) ++ '|' :: (t.category ++ '|' ::
    (formatAmount2 t.amount ++ '|' :: t.note)))))

/-- C `save_to_file`: one line per stored transaction, in store order. -/
def save_to_file (store : List Transaction) : List (List Char) :=
  store.map save_line

/- ----------------------- add_transaction ----------------------------- -/

/-- The error kinds of the specification (§7) for `append`. -/
inductive Err where
  | CapacityExceeded
  | InvalidDate
  | InvalidAmount
deriving DecidableEq

/-- The sanitisation loop of `add_transaction`:
`for (p = s; *p; ++p) if (*p == '|') *p = '/';`. -/
def sanitize (s : List Char) : List Char :=
  s.map (fun c => if c = '|' then '/' else c)

/-- The default category used when the entered category is empty. -/
def defaultCategory : TxType → List Char
  | TxType.INCOME => "Salary".data
  | TxType.EXPENSE => "Misc".data

/-- C `add_transaction`, with the interactive reads replaced by the
already-collected inputs.  `category0` and `note0` come from `read_line`
(a single `fgets` line with the newline stripped), whose buffers bound
them to `STR_LEN - 1` and `NOTE_LEN - 1` characters. -/
def add_transaction (store : List Transaction) (y m d : Int) (t : TxType)
    (category0 : List Char) (amount : Rat) (note0 : List Char) :
    Except Err (List Transaction) :=
  if MAX_TRANSACTIONS ≤ store.length then Except.error Err.CapacityExceeded
  else if valid_date y m d = false then Except.error Err.InvalidDate
  else if amount ≤ 0 then Except.error Err.InvalidAmount
  else
    let category1 := (if category0 = [] then defaultCategory t else category0).take (STR_LEN - 1)
    let note1 := note0.take (NOTE_LEN - 1)
    Except.ok (store ++ [⟨y, m, d, t, sanitize category1, amount, sanitize note1⟩])

/- ----------------------- sorting ------------------------------------- -/

/-- C `cmp_date`. -/
def cmp_date (x z : Transaction) : Int :=
  if x.y ≠ z.y then (if x.y < z.y then -1 else 1)
  else if x.m ≠ z.m then (if x.m < z.m then -1 else 1)
  else if x.d ≠ z.d then (if x.d < z.d then -1 else 1)
  else 0

/-- C `cmp_amount_desc`. -/
def cmp_amount_desc (x z : Transaction) : Int :=
  if x.amount < z.amount then 1
  else if z.amount < x.amount then -1
  else 0

/-- The contract of C `qsort` with comparator `cmp` (C11 7.22.5.2): the
result is a permutation of the input that is pairwise ordered by the
comparator.  The order of elements that compare equal is unspecified, so
`qsort` is modelled as this relation between input and output. -/
def qsort_post (cmp : Transaction → Transaction → Int)
    (l s : List Transaction) : Prop :=
  l.Perm s ∧ s.Pairwise (fun a b => cmp a b ≤ 0)

/-- Stability of a sort under comparator `cmp`: comparator-equal elements
keep their original relative order in every possible output. -/
def sort_stable (cmp : Transaction → Transaction → Int) : Prop :=
  ∀ l s, qsort_post cmp l s → ∀ a b, a ∈ l → b ∈ l → cmp a b = 0 →
    List.indexOf a l < List.indexOf b l → List.indexOf a s < List.indexOf b s

/-- Idempotence of a sort: running it a second time can only yield the
order produced by the first run. -/
def sort_idempotent (cmp : Transaction → Transaction → Int) : Prop :=
  ∀ l s s2, qsort_post cmp l s → qsort_post cmp s s2 → s2 = s

/-- The (year, month, day) lexicographic order claimed for the date sort. -/
def date_le (x z : Transaction) : Prop :=
  x.y < z.y ∨ (x.y = z.y ∧ (x.m < z.m ∨ (x.m = z.m ∧ x.d ≤ z.d)))

/-- Descending order on amounts claimed for the amount sort. -/
def amount_ge (x z : Transaction) : Prop := z.amount ≤ x.amount

/- ----------------------- summary / chart ----------------------------- -/

/-- The accumulation step of `show_summary`. -/
def summaryStep (p : Rat × Rat) (t : Transaction) : Rat × Rat :=
  if t.type = TxType.INCOME then (p.1 + t.amount, p.2) else (p.1, p.2 + t.amount)

/-- C `show_summary`: returns `(income, expense, income - expense)`. -/
def show_summary (store : List Transaction) : Rat × Rat × Rat :=
  let p := store.foldl summaryStep (0, 0)
  (p.1, p.2, p.1 - p.2)

/-- Specification-side sum of Income amounts. -/
def sumInc : List Transaction → Rat
  | [] => 0
  | t :: rest => (if t.type = TxType.INCOME then t.amount else 0) + sumInc rest

/-- Specification-side sum of Expense amounts. -/
def sumExp : List Transaction → Rat
  | [] => 0
  | t :: rest => (if t.type = TxType.EXPENSE then t.amount else 0) + sumExp rest

/-- The accumulation step of the `monthly_spending_chart` sums loop; the
C array `double sums[13]` is modelled by its contents function. -/
def chartStep (year : Int) (sums : Nat → Rat) (t : Transaction) : Nat → Rat :=
  if t.type = TxType.EXPENSE ∧ t.y = year ∧ 1 ≤ t.m ∧ t.m ≤ 12 then
    fun k => if k = t.m.toNat then sums k + t.amount else sums k
  else sums

/-- The per-month expense sums computed by `monthly_spending_chart`. -/
def chart_sums (store : List Transaction) (year : Int) : Nat → Rat :=
  store.foldl (chartStep year) (fun _ => 0)

/-- The max-finding step of `monthly_spending_chart`. -/
def maxStep (sums : Nat → Rat) (mx : Rat) (m : Nat) : Rat :=
  if mx < sums m then sums m else mx

/-- `maxv` of `monthly_spending_chart`: maximum of the 12 sums, starting
from 0. -/
def chart_max (sums : Nat → Rat) : Rat :=
  (List.range' 1 12).foldl (maxStep sums) 0

/-- `total` of `monthly_spending_chart`: sum of the 12 sums. -/
def chart_total (sums : Nat → Rat) : Rat :=
  (List.range' 1 12).foldl (fun a m => a + sums m) 0

/-- C `monthly_spending_chart` for a given year: `none` models the
early-return "No expenses recorded" branch (`maxv == 0.0`, no chart);
otherwise the chart data: the 12 monthly sums (January first), the
maximum used for scaling, and the grand total. -/
def monthly_spending_chart (store : List Transaction) (year : Int) :
    Option (List Rat × Rat × Rat) :=
  if chart_max (chart_sums store year) = 0 then none
  else some ((List.range' 1 12).map (chart_sums store year),
    chart_max (chart_sums store year), chart_total (chart_sums store year))

/-- Specification-side sum of Expense amounts of one month of one year. -/
def monthSum (year : Int) (m : Nat) : List Transaction → Rat
  | [] => 0
  | t :: rest =>
      (if t.type = TxType.EXPENSE ∧ t.y = year ∧ t.m = (m : Int) then t.amount else 0)
        + monthSum year m rest

/- ----------------------- well-formedness ----------------------------- -/

/-- The shape of every transaction produced by `add_transaction`: a valid
date, a strictly positive amount, a nonempty category of at most 63
characters, a note of at most 127 characters, no `'|'` in either (they
are sanitised), and no newline in either (`read_line` strips it). -/
def AppendGood (t : Transaction) : Prop :=
  valid_date t.y t.m t.d = true ∧ 0 < t.amount ∧
  t.category ≠ [] ∧ t.category.length ≤ STR_LEN - 1 ∧
  (∀ c ∈ t.category, c ≠ '|') ∧ (∀ c ∈ t.category, c ≠ '\n') ∧
  t.note.length ≤ NOTE_LEN - 1 ∧
  (∀ c ∈ t.note, c ≠ '|') ∧ (∀ c ∈ t.note, c ≠ '\n')

/-- Stores reachable from the empty store using only `append`
(`add_transaction`).  The category and note inputs come from `read_line`
and therefore contain no newline. -/
inductive BuiltByAppend : List Transaction → Prop where
  | nil : BuiltByAppend []
  | step (s : List Transaction) (y m d : Int) (t : TxType)
      (category0 : List Char) (amount : Rat) (note0 : List Char)
      (s2 : List Transaction) :
      BuiltByAppend s →
      (∀ c ∈ category0, c ≠ '\n') → (∀ c ∈ note0, c ≠ '\n') →
      add_transaction s y m d t category0 amount note0 = Except.ok s2 →
      BuiltByAppend s2

/-- Boundary condition for maximal-munch digit parsing: the remainder
does not begin with a digit. -/
def headNotDigit : List Char → Prop
  | [] => True
  | c :: _ => isDig c = false

/-- The zero-amount line used for the load side of the append/load
asymmetry: `y|m|d|1|Food|0.00|x`. -/
def zline (y m d : Int) : List Char :=
  intRepr y ++ '|' :: (intRepr m ++ '|' :: (intRepr d ++ '|' ::
    (intRepr 1 ++ '|' :: ("Food".data ++ '|' ::
    (formatAmount2Nat 0 ++ '|' :: "x".data)))))

/- Concrete transactions used in scenarios and counterexamples. -/

/-- Scenario transaction: 2025-01-15 Expense Food 50.00. -/
def scen1 : Transaction := ⟨2025, 1, 15, TxType.EXPENSE, "Food".data, 50, []⟩

/-- Scenario transaction: 2025-02-01 Expense Rent 950.00. -/
def scen2 : Transaction := ⟨2025, 2, 1, TxType.EXPENSE, "Rent".data, 950, []⟩

/-- Scenario transaction: 2025-01-20 Income Salary 2000.00. -/
def scen3 : Transaction := ⟨2025, 1, 20, TxType.INCOME, "Salary".data, 2000, []⟩

/-- Tie-breaking counterexample transaction (same date and amount as
`tieB`, different note). -/
def tieA : Transaction := ⟨2025, 3, 3, TxType.EXPENSE, "Food".data, 10, "a".data⟩

/-- Tie-breaking counterexample transaction. -/
def tieB : Transaction := ⟨2025, 3, 3, TxType.EXPENSE, "Food".data, 10, "b".data⟩

/-- Round-trip counterexample transaction: appended with amount 0.001,
which `%.2f` prints as `0.00`. -/
def milli : Transaction := ⟨2025, 1, 15, TxType.INCOME, "Food".data, 1 / 1000, []⟩

/-- The shape of every transaction whose `save_to_file` line is parsed
back verbatim by `load_from_file`: valid date, nonnegative amount with at
most two decimal digits, nonempty category of at most 63 characters
without the delimiter, note of at most 127 characters without a newline. -/
def TxGood (t : Transaction) : Prop :=
  valid_date t.y t.m t.d = true ∧ 0 ≤ t.amount ∧ (t.amount * 100).den = 1 ∧
  t.category ≠ [] ∧ t.category.length ≤ 63 ∧ (∀ c ∈ t.category, c ≠ '|') ∧
  t.note.length ≤ 127 ∧ (∀ c ∈ t.note, c ≠ '\n')

deriving instance DecidableEq for Except

instance (cmp : Transaction → Transaction → Int) (l s : List Transaction) :
    Decidable (qsort_post cmp l s) := by
  unfold qsort_post
  infer_instance

/- ===================== lemmas: digits and printing ==================== -/

lemma isDig_iff {c : Char} : isDig c = true ↔ 48 ≤ c.toNat ∧ c.toNat ≤ 57 := by
  simp [isDig]

lemma not_isSpc_of_isDig {c : Char} (h : isDig c = true) : isSpc c = false := by
  rw [isDig_iff] at h
  simp only [isSpc, decide_eq_false_iff_not]
  omega

lemma ne_of_isDig {c d : Char} (h : isDig c = true) (hd : isDig d = false) : c ≠ d := by
  intro he
  rw [he, hd] at h
  cases h

lemma natReprAux_zero (f : Nat) : natReprAux f 0 = [] := by
  cases f <;> simp [natReprAux]

lemma digitChar_lt_ten :
    ∀ n, n < 10 → (digitChar n).toNat = 48 + n ∧ isDig (digitChar n) = true := by
  decide

lemma digitsVal_append_singleton (xs : List Char) (c : Char) :
    digitsVal (xs ++ [c]) = 10 * digitsVal xs + (c.toNat - 48) := by
  simp [digitsVal, List.foldl_append]

lemma natReprAux_spec :
    ∀ f n, 0 < n → n ≤ f →
      natReprAux f n ≠ [] ∧ (∀ c ∈ natReprAux f n, isDig c = true) ∧
        digitsVal (natReprAux f n) = n := by
  intro f
  induction f with
  | zero => intro n h1 h2; omega
  | succ f ih =>
    intro n h1 _
    have hmod : n % 10 < 10 := Nat.mod_lt _ (by norm_num)
    rw [natReprAux, if_neg (by omega)]
    by_cases h10 : n < 10
    · have hdiv : n / 10 = 0 := Nat.div_eq_of_lt h10
      rw [hdiv, natReprAux_zero, List.nil_append]
      refine ⟨by simp, ?_, ?_⟩
      · intro c hc
        rw [List.mem_singleton] at hc
        subst hc
        exact (digitChar_lt_ten _ hmod).2
      · simp only [digitsVal, List.foldl_cons, List.foldl_nil,
          (digitChar_lt_ten _ hmod).1]
        omega
    · have hdpos : 0 < n / 10 := Nat.div_pos (by omega) (by norm_num)
      have hdle : n / 10 ≤ f := by
        have := Nat.div_lt_self (show 0 < n by omega) (show 1 < 10 by norm_num)
        omega
      obtain ⟨hne, hdig, hval⟩ := ih (n / 10) hdpos hdle
      refine ⟨by simp, ?_, ?_⟩
      · intro c hc
        rw [List.mem_append] at hc
        rcases hc with hc | hc
        · exact hdig c hc
        · rw [List.mem_singleton] at hc
          subst hc
          exact (digitChar_lt_ten _ hmod).2
      · rw [digitsVal_append_singleton, hval, (digitChar_lt_ten _ hmod).1]
        omega

lemma natRepr_ne_nil (n : Nat) : natRepr n ≠ [] := by
  unfold natRepr
  split
  · simp
  · exact (natReprAux_spec n n (by omega) le_rfl).1

lemma natRepr_digits (n : Nat) : ∀ c ∈ natRepr n, isDig c = true := by
  unfold natRepr
  split
  · intro c hc
    rw [List.mem_singleton] at hc
    subst hc
    decide
  · exact (natReprAux_spec n n (by omega) le_rfl).2.1

lemma digitsVal_natRepr (n : Nat) : digitsVal (natRepr n) = n := by
  unfold natRepr
  split
  · subst n; decide
  · exact (natReprAux_spec n n (by omega) le_rfl).2.2

lemma headNotDigit_cons {c : Char} {cs : List Char} :
    headNotDigit (c :: cs) ↔ isDig c = false := Iff.rfl

lemma takeDigits_append (ds rest : List Char) (h1 : ∀ c ∈ ds, isDig c = true)
    (h2 : headNotDigit rest) : takeDigits (ds ++ rest) = (ds, rest) := by
  induction ds with
  | nil =>
    rw [List.nil_append]
    cases rest with
    | nil => rfl
    | cons c cs =>
      rw [headNotDigit_cons] at h2
      simp [takeDigits, h2]
  | cons d ds ih =>
    have hd : isDig d = true := h1 d (by simp)
    rw [List.cons_append, takeDigits, if_pos hd,
      ih (fun c hc => h1 c (by simp [hc]))]

lemma skipWs_cons {c : Char} (cs : List Char) (h : isSpc c = false) :
    skipWs (c :: cs) = c :: cs := by
  simp [skipWs, h]

lemma digitsToInt_eq (sgn : Int) (ds r : List Char) (h : ds ≠ []) :
    digitsToInt sgn (ds, r) = some (sgn * (digitsVal ds : Int), r) := by
  cases ds with
  | nil => exact absurd rfl h
  | cons d ds => rfl

lemma parseIntConv_digits (ds rest : List Char) (h0 : ds ≠ [])
    (h1 : ∀ c ∈ ds, isDig c = true) (h2 : headNotDigit rest) :
    parseIntConv (ds ++ rest) = some ((digitsVal ds : Int), rest) := by
  cases ds with
  | nil => exact absurd rfl h0
  | cons c cs =>
    have hc : isDig c = true := h1 c (by simp)
    have hm : c ≠ '-' := ne_of_isDig hc (by decide)
    have hp : c ≠ '+' := ne_of_isDig hc (by decide)
    rw [List.cons_append, parseIntConv, skipWs_cons _ (not_isSpc_of_isDig hc)]
    simp only [if_neg hm, if_neg hp]
    rw [show c :: (cs ++ rest) = (c :: cs) ++ rest from rfl,
      takeDigits_append _ _ h1 h2, digitsToInt_eq _ _ _ h0, one_mul]

lemma parseIntConv_intRepr (k : Int) (rest : List Char) (h2 : headNotDigit rest) :
    parseIntConv (intRepr k ++ rest) = some (k, rest) := by
  by_cases hk : k < 0
  · rw [intRepr, if_pos hk, List.cons_append, parseIntConv,
      skipWs_cons _ (by decide)]
    show digitsToInt (-1) (takeDigits (natRepr (-k).toNat ++ rest)) = some (k, rest)
    rw [takeDigits_append _ _ (natRepr_digits _) h2,
      digitsToInt_eq _ _ _ (natRepr_ne_nil _), digitsVal_natRepr]
    congr 2
    omega
  · rw [intRepr, if_neg hk,
      parseIntConv_digits _ _ (natRepr_ne_nil _) (natRepr_digits _) h2,
      digitsVal_natRepr]
    congr 2
    omega

lemma expectChar_cons (c : Char) (rest : List Char) :
    expectChar c (c :: rest) = some rest := by
  simp [expectChar]

/- ===================== lemmas: scansets ============================== -/

lemma takeScan_stop (stop : Char) :
    ∀ (xs : List Char) (w : Nat) (rest : List Char), xs.length ≤ w →
      (∀ c ∈ xs, c ≠ stop) →
      takeScan stop w (xs ++ stop :: rest) = (xs, stop :: rest) := by
  intro xs
  induction xs with
  | nil =>
    intro w rest _ _
    cases w with
    | zero => rfl
    | succ w => simp [takeScan]
  | cons x xs ih =>
    intro w rest hl hmem
    cases w with
    | zero => simp at hl
    | succ w =>
      have hx : x ≠ stop := hmem x (by simp)
      rw [List.cons_append, takeScan, if_neg hx,
        ih w rest (by simpa using hl) (fun c hc => hmem c (by simp [hc]))]

lemma takeScan_all (stop : Char) :
    ∀ (xs : List Char) (w : Nat), xs.length ≤ w → (∀ c ∈ xs, c ≠ stop) →
      takeScan stop w xs = (xs, []) := by
  intro xs
  induction xs with
  | nil => intro w _ _; cases w <;> rfl
  | cons x xs ih =>
    intro w hl hmem
    cases w with
    | zero => simp at hl
    | succ w =>
      have hx : x ≠ stop := hmem x (by simp)
      rw [takeScan, if_neg hx,
        ih w (by simpa using hl) (fun c hc => hmem c (by simp [hc]))]

lemma takeScan_mem_ne (stop : Char) :
    ∀ (w : Nat) (s : List Char), ∀ c ∈ (takeScan stop w s).1, c ≠ stop := by
  intro w
  induction w with
  | zero => intro s c hc; simp [takeScan] at hc
  | succ w ih =>
    intro s c hc
    cases s with
    | nil => simp [takeScan] at hc
    | cons x xs =>
      rw [takeScan] at hc
      by_cases hx : x = stop
      · rw [if_pos hx] at hc
        simp at hc
      · rw [if_neg hx] at hc
        rcases List.mem_cons.mp hc with h | h
        · subst h; exact hx
        · exact ih xs c h

lemma scanOfPair_eq (xs r : List Char) (h : xs ≠ []) :
    scanOfPair (xs, r) = some (xs, r) := by
  cases xs with
  | nil => exact absurd rfl h
  | cons x xs => rfl

lemma parseScan_stop (stop : Char) (w : Nat) (xs rest : List Char)
    (h0 : xs ≠ []) (hl : xs.length ≤ w) (hmem : ∀ c ∈ xs, c ≠ stop) :
    parseScan stop w (xs ++ stop :: rest) = some (xs, stop :: rest) := by
  rw [parseScan, takeScan_stop stop xs w rest hl hmem, scanOfPair_eq _ _ h0]

lemma parseScan_all (stop : Char) (w : Nat) (xs : List Char)
    (h0 : xs ≠ []) (hl : xs.length ≤ w) (hmem : ∀ c ∈ xs, c ≠ stop) :
    parseScan stop w xs = some (xs, []) := by
  rw [parseScan, takeScan_all stop xs w hl hmem, scanOfPair_eq _ _ h0]

lemma parseScan_nil (stop : Char) (w : Nat) : parseScan stop w [] = none := by
  cases w <;> rfl

/- ===================== lemmas: %lf parsing =========================== -/

lemma pad2_spec :
    ∀ b, b < 100 → (pad2 b).length = 2 ∧ digitsVal (pad2 b) = b ∧
      ∀ c ∈ pad2 b, isDig c = true := by
  decide

lemma cast_div_add_mod_100 (n : Nat) :
    ((n / 100 : Nat) : Rat) + ((n % 100 : Nat) : Rat) / 100 = (n : Rat) / 100 := by
  have h : ((100 * (n / 100) + n % 100 : Nat) : Rat) = (n : Rat) := by
    exact_mod_cast congrArg (fun k : Nat => (k : Rat)) (Nat.div_add_mod n 100)
  push_cast at h
  rw [← h]
  ring

lemma fracPart_dot (s : List Char) : fracPart ('.' :: s) = takeDigits s := by
  simp [fracPart]

lemma expPart_bar (rest : List Char) : expPart ('|' :: rest) = (0, '|' :: rest) := by
  rw [expPart, if_neg (by decide)]

lemma parseUDouble_fmt (a b : Nat) (hb : b < 100) (rest2 : List Char) :
    parseUDouble (natRepr a ++ '.' :: (pad2 b ++ '|' :: rest2))
      = some ((a : Rat) + (b : Rat) / 100, '|' :: rest2) := by
  obtain ⟨hlen, hval, hdig⟩ := pad2_spec b hb
  simp only [parseUDouble,
    takeDigits_append (natRepr a) ('.' :: (pad2 b ++ '|' :: rest2)) (natRepr_digits a)
      (headNotDigit_cons.mpr (by decide)),
    fracPart_dot,
    takeDigits_append (pad2 b) ('|' :: rest2) hdig
      (headNotDigit_cons.mpr (by decide))]
  rw [if_neg (by simp [natRepr_ne_nil a])]
  simp only [expPart_bar]
  rw [digitsVal_natRepr, hval, hlen, zpow_zero, mul_one]
  norm_num

lemma parseDouble_fmtNat (n : Nat) (rest2 : List Char) :
    parseDouble (formatAmount2Nat n ++ '|' :: rest2)
      = some ((n : Rat) / 100, '|' :: rest2) := by
  have hassoc : formatAmount2Nat n ++ '|' :: rest2
      = natRepr (n / 100) ++ '.' :: (pad2 (n % 100) ++ '|' :: rest2) := by
    simp [formatAmount2Nat]
  rw [hassoc]
  obtain ⟨c, cs, hc⟩ : ∃ c cs, natRepr (n / 100) = c :: cs := by
    cases h : natRepr (n / 100) with
    | nil => exact absurd h (natRepr_ne_nil _)
    | cons c cs => exact ⟨c, cs, rfl⟩
  have hcdig : isDig c = true := natRepr_digits (n / 100) c (by rw [hc]; simp)
  rw [hc, List.cons_append]
  simp only [parseDouble, skipWs_cons _ (not_isSpc_of_isDig hcdig)]
  rw [if_neg (ne_of_isDig hcdig (by decide)), if_neg (ne_of_isDig hcdig (by decide)),
    ← List.cons_append, ← hc,
    parseUDouble_fmt (n / 100) (n % 100) (Nat.mod_lt _ (by norm_num)) rest2,
    cast_div_add_mod_100]

/- ===================== lemmas: whole-line scanning ==================== -/

lemma scanLine_fmt (yv mv dv kv : Int) (n : Nat) (cat note : List Char)
    (hc0 : cat ≠ []) (hc1 : cat.length ≤ 63) (hc2 : ∀ c ∈ cat, c ≠ '|')
    (hn1 : note.length ≤ 127) (hn2 : ∀ c ∈ note, c ≠ '\n') :
    scanLine (intRepr yv ++ '|' :: (intRepr mv ++ '|' :: (intRepr dv ++ '|' ::
        (intRepr kv ++ '|' :: (cat ++ '|' :: (formatAmount2Nat n ++ '|' :: note))))))
      = if note = [] then ⟨6, yv, mv, dv, kv, cat, (n : Rat) / 100, []⟩
        else ⟨7, yv, mv, dv, kv, cat, (n : Rat) / 100, note⟩ := by
  have hbar : isDig '|' = false := by decide
  set s5 := formatAmount2Nat n ++ '|' :: note with hs5
  set s4 := cat ++ '|' :: s5 with hs4
  set s3 := intRepr kv ++ '|' :: s4 with hs3
  set s2 := intRepr dv ++ '|' :: s3 with hs2
  set s1 := intRepr mv ++ '|' :: s2 with hs1
  have h1 : parseIntConv (intRepr yv ++ '|' :: s1) = some (yv, '|' :: s1) :=
    parseIntConv_intRepr _ _ (headNotDigit_cons.mpr hbar)
  have h2 : parseIntConv s1 = some (mv, '|' :: s2) := by
    rw [hs1]; exact parseIntConv_intRepr _ _ (headNotDigit_cons.mpr hbar)
  have h3 : parseIntConv s2 = some (dv, '|' :: s3) := by
    rw [hs2]; exact parseIntConv_intRepr _ _ (headNotDigit_cons.mpr hbar)
  have h4 : parseIntConv s3 = some (kv, '|' :: s4) := by
    rw [hs3]; exact parseIntConv_intRepr _ _ (headNotDigit_cons.mpr hbar)
  have h5 : parseScan '|' 63 s4 = some (cat, '|' :: s5) := by
    rw [hs4]; exact parseScan_stop '|' 63 cat s5 hc0 hc1 hc2
  have h6 : parseDouble s5 = some ((n : Rat) / 100, '|' :: note) := by
    rw [hs5]; exact parseDouble_fmtNat n note
  by_cases hn : note = []
  · subst hn
    simp only [scanLine, h1, expectChar_cons, h2, h3, h4, h5, h6, parseScan_nil,
      if_true]
  · have h7 : parseScan '\n' 127 note = some (note, []) :=
      parseScan_all '\n' 127 note hn hn1 hn2
    simp only [scanLine, h1, expectChar_cons, h2, h3, h4, h5, h6, h7, if_neg hn]

lemma num_cast_of_den_one {q : Rat} (h : q.den = 1) : (q.num : Rat) = q := by
  conv_rhs => rw [← Rat.num_div_den q]
  rw [h]
  simp

lemma formatAmount2_eq (q : Rat) (h0 : 0 ≤ q) (hden : (q * 100).den = 1) :
    formatAmount2 q = formatAmount2Nat (q * 100).num.toNat ∧
      ((q * 100).num.toNat : Rat) / 100 = q := by
  have hq : ((q * 100).num : Rat) = q * 100 := num_cast_of_den_one hden
  have hnn : 0 ≤ (q * 100).num :=
    Rat.num_nonneg.mpr (mul_nonneg h0 (by norm_num))
  have hcast : ((q * 100).num.toNat : Rat) = q * 100 := by
    rw [← hq]
    exact_mod_cast congrArg (fun k : Int => (k : Rat)) (Int.toNat_of_nonneg hnn)
  constructor
  · rw [formatAmount2, if_neg (not_lt.mpr h0)]
    have hround : round (q * 100) = (q * 100).num := by
      conv_lhs => rw [← hq]
      exact round_intCast _
    rw [hround]
  · rw [hcast]
    field_simp

lemma parseLine_save_line (t : Transaction) (h : TxGood t) :
    parseLine (save_line t) = some t := by
  obtain ⟨ty, tm, td, ttype, tcat, tamt, tnote⟩ := t
  obtain ⟨hvd, hq0, hden, hc0, hc1, hc2, hn1, hn2⟩ := h
  obtain ⟨hfmt, hval⟩ := formatAmount2_eq tamt hq0 hden
  simp only at hvd hq0 hden hc0 hc1 hc2 hn1 hn2
  rw [parseLine, save_line]
  simp only
  rw [hfmt, scanLine_fmt ty tm td (typeCode ttype) _ tcat tnote hc0 hc1 hc2 hn1 hn2]
  have hamt : 0 ≤ ((tamt * 100).num.toNat : Rat) / 100 := by positivity
  by_cases hn : tnote = []
  · subst hn
    rw [if_pos rfl]
    cases ttype <;> simp [typeCode, hvd, hamt, hval, hq0]
  · rw [if_neg hn]
    cases ttype <;> simp [typeCode, hvd, hamt, hval, hq0]

/- ===================== lemmas: deserialize =========================== -/

lemma loadLoop_eq (lines : List (List Char)) :
    ∀ acc, acc.length ≤ MAX_TRANSACTIONS →
      loadLoop lines acc
        = acc ++ (lines.filterMap parseLine).take (MAX_TRANSACTIONS - acc.length) := by
  induction lines with
  | nil => intro acc _; simp [loadLoop]
  | cons line rest ih =>
    intro acc hacc
    cases hp : parseLine line with
    | none =>
      simp only [loadLoop, hp, List.filterMap_cons]
      exact ih acc hacc
    | some t =>
      by_cases hlt : acc.length < MAX_TRANSACTIONS
      · simp only [loadLoop, hp, if_pos hlt, List.filterMap_cons]
        rw [ih (acc ++ [t]) (by simp; omega)]
        have hstep : MAX_TRANSACTIONS - acc.length
            = (MAX_TRANSACTIONS - (acc ++ [t]).length) + 1 := by
          simp only [List.length_append, List.length_singleton]
          omega
        rw [hstep, List.take_succ_cons]
        simp
      · simp only [loadLoop, hp, if_neg hlt, List.filterMap_cons]
        rw [ih acc hacc]
        have h0 : MAX_TRANSACTIONS - acc.length = 0 := by omega
        rw [h0]
        simp

lemma deserialize_eq (lines : List (List Char)) :
    deserialize lines = (lines.filterMap parseLine).take MAX_TRANSACTIONS := by
  rw [deserialize, loadLoop_eq lines [] (by simp)]
  simp

lemma filterMap_save (S : List Transaction)
    (h : ∀ t ∈ S, parseLine (save_line t) = some t) :
    (S.map save_line).filterMap parseLine = S := by
  induction S with
  | nil => rfl
  | cons t rest ih =>
    simp only [List.map_cons, List.filterMap_cons, h t (by simp)]
    rw [ih (fun x hx => h x (by simp [hx]))]

/- ===================== lemmas: parseLine shape ======================== -/

lemma parseLine_isSome (line : List Char) :
    (parseLine line).isSome = true ↔
      6 ≤ (scanLine line).matched ∧
        valid_date (scanLine line).y (scanLine line).m (scanLine line).d = true ∧
        0 ≤ (scanLine line).amount := by
  rw [parseLine]
  by_cases h1 : 6 ≤ (scanLine line).matched
  · rw [if_pos h1]
    by_cases h2 : valid_date (scanLine line).y (scanLine line).m (scanLine line).d = true
        ∧ 0 ≤ (scanLine line).amount
    · rw [if_pos h2]
      simp only [Option.isSome_some, true_iff]
      exact ⟨h1, h2.1, h2.2⟩
    · rw [if_neg h2]
      simp only [Option.isSome_none, Bool.false_eq_true, false_iff]
      rintro ⟨-, hv, ha⟩
      exact h2 ⟨hv, ha⟩
  · rw [if_neg h1]
    simp only [Option.isSome_none, Bool.false_eq_true, false_iff]
    rintro ⟨h6, -⟩
    exact h1 h6

lemma parseLine_note_default (line : List Char) (t : Transaction)
    (hp : parseLine line = some t) (hm : (scanLine line).matched = 6) :
    t.note = [] := by
  rw [parseLine, hm] at hp
  rw [if_pos (by norm_num)] at hp
  rw [if_neg (by norm_num : ¬(6 = 7))] at hp
  by_cases h2 : valid_date (scanLine line).y (scanLine line).m (scanLine line).d = true
      ∧ 0 ≤ (scanLine line).amount
  · rw [if_pos h2] at hp
    simp only [Option.some.injEq] at hp
    rw [← hp]
  · rw [if_neg h2] at hp
    exact Option.noConfusion hp

lemma parseLine_some_of (line : List Char)
    (h6 : 6 ≤ (scanLine line).matched)
    (hv : valid_date (scanLine line).y (scanLine line).m (scanLine line).d = true)
    (ha : 0 ≤ (scanLine line).amount) :
    parseLine line = some ⟨(scanLine line).y, (scanLine line).m, (scanLine line).d,
      (if (scanLine line).typeInt = 1 then TxType.EXPENSE else TxType.INCOME),
      (scanLine line).category, (scanLine line).amount,
      (if (scanLine line).matched = 7 then (scanLine line).note else [])⟩ := by
  rw [parseLine, if_pos h6, if_pos ⟨hv, ha⟩]

lemma parseScan_inv {stop : Char} {w : Nat} {s xs r : List Char}
    (h : parseScan stop w s = some (xs, r)) : xs = (takeScan stop w s).1 := by
  rw [parseScan] at h
  rcases htk : takeScan stop w s with ⟨as, bs⟩
  rw [htk] at h
  cases as with
  | nil => exact Option.noConfusion h
  | cons a as =>
    simp only [scanOfPair, Option.some.injEq, Prod.mk.injEq] at h
    rw [← h.1]

lemma parseScan_mem_ne {stop : Char} {w : Nat} {s xs r : List Char}
    (h : parseScan stop w s = some (xs, r)) : ∀ c ∈ xs, c ≠ stop := by
  intro c hc
  rw [parseScan_inv h] at hc
  exact takeScan_mem_ne stop w s c hc

lemma scanLine_category_ne (line : List Char) :
    ∀ c ∈ (scanLine line).category, c ≠ '|' := by
  unfold scanLine
  cases h1 : parseIntConv line with
  | none => simp [h1]
  | some p1 =>
  obtain ⟨yv, r1⟩ := p1
  simp only [h1]
  cases h2 : expectChar '|' r1 with
  | none => simp [h2]
  | some r2 =>
  simp only [h2]
  cases h3 : parseIntConv r2 with
  | none => simp [h3]
  | some p2 =>
  obtain ⟨mv, r3⟩ := p2
  simp only [h3]
  cases h4 : expectChar '|' r3 with
  | none => simp [h4]
  | some r4 =>
  simp only [h4]
  cases h5 : parseIntConv r4 with
  | none => simp [h5]
  | some p3 =>
  obtain ⟨dv, r5⟩ := p3
  simp only [h5]
  cases h6 : expectChar '|' r5 with
  | none => simp [h6]
  | some r6 =>
  simp only [h6]
  cases h7 : parseIntConv r6 with
  | none => simp [h7]
  | some p4 =>
  obtain ⟨tv, r7⟩ := p4
  simp only [h7]
  cases h8 : expectChar '|' r7 with
  | none => simp [h8]
  | some r8 =>
  simp only [h8]
  cases h9 : parseScan '|' 63 r8 with
  | none => simp [h9]
  | some p5 =>
  obtain ⟨cat, r9⟩ := p5
  simp only [h9]
  intro c hc
  have hmem : c ∈ cat → c ≠ '|' := fun hm => parseScan_mem_ne h9 c hm
  revert hc
  repeat' split
  all_goals (intro hc; exact hmem hc)

/- ===================== lemmas: add_transaction ======================== -/

lemma add_transaction_ok {s : List Transaction} {y m d : Int} {ty : TxType}
    {c0 : List Char} {q : Rat} {n0 : List Char} {s2 : List Transaction}
    (h : add_transaction s y m d ty c0 q n0 = Except.ok s2) :
    s.length < MAX_TRANSACTIONS ∧ valid_date y m d = true ∧ 0 < q ∧
      s2 = s ++ [⟨y, m, d, ty,
        sanitize ((if c0 = [] then defaultCategory ty else c0).take (STR_LEN - 1)),
        q, sanitize (n0.take (NOTE_LEN - 1))⟩] := by
  rw [add_transaction] at h
  by_cases h1 : MAX_TRANSACTIONS ≤ s.length
  · rw [if_pos h1] at h
    exact Except.noConfusion h
  · rw [if_neg h1] at h
    by_cases h2 : valid_date y m d = false
    · rw [if_pos h2] at h
      exact Except.noConfusion h
    · rw [if_neg h2] at h
      by_cases h3 : q ≤ 0
      · rw [if_pos h3] at h
        exact Except.noConfusion h
      · rw [if_neg h3] at h
        simp only [Except.ok.injEq] at h
        refine ⟨by omega, ?_, not_le.mp h3, h.symm⟩
        cases hb : valid_date y m d with
        | false => exact absurd hb h2
        | true => rfl

lemma sanitize_no_bar (s : List Char) : ∀ c ∈ sanitize s, c ≠ '|' := by
  intro c hc
  rw [sanitize, List.mem_map] at hc
  obtain ⟨x, _, hx⟩ := hc
  by_cases hb : x = '|'
  · rw [← hx, if_pos hb]; decide
  · rw [← hx, if_neg hb]; exact hb

lemma sanitize_length (s : List Char) : (sanitize s).length = s.length := by
  simp [sanitize]

lemma sanitize_ne_nil {s : List Char} (h : s ≠ []) : sanitize s ≠ [] := by
  cases s with
  | nil => exact absurd rfl h
  | cons a as => simp [sanitize]

lemma sanitize_no_newline {s : List Char} (h : ∀ c ∈ s, c ≠ '\n') :
    ∀ c ∈ sanitize s, c ≠ '\n' := by
  intro c hc
  rw [sanitize, List.mem_map] at hc
  obtain ⟨x, hxs, hx⟩ := hc
  by_cases hb : x = '|'
  · rw [← hx, if_pos hb]; decide
  · rw [← hx, if_neg hb]; exact h x hxs

lemma take_ne_nil {s : List Char} {n : Nat} (h : s ≠ []) (hn : 0 < n) :
    s.take n ≠ [] := by
  cases s with
  | nil => exact absurd rfl h
  | cons a as =>
    cases n with
    | zero => omega
    | succ n => simp

lemma add_transaction_good {s : List Transaction} {y m d : Int} {ty : TxType}
    {c0 : List Char} {q : Rat} {n0 : List Char} {s2 : List Transaction}
    (h : add_transaction s y m d ty c0 q n0 = Except.ok s2)
    (hc : ∀ c ∈ c0, c ≠ '\n') (hn : ∀ c ∈ n0, c ≠ '\n') :
    ∀ t ∈ s2, t ∈ s ∨ AppendGood t := by
  obtain ⟨hlen, hvd, hq, hs2⟩ := add_transaction_ok h
  subst hs2
  intro t ht
  rcases List.mem_append.mp ht with hmem | hmem
  · exact Or.inl hmem
  · right
    rw [List.mem_singleton] at hmem
    subst hmem
    have hcat_ne : (if c0 = [] then defaultCategory ty else c0) ≠ [] := by
      split
      · cases ty <;> decide
      · next hcc => exact hcc
    have hcat_nl : ∀ c ∈ (if c0 = [] then defaultCategory ty else c0), c ≠ '\n' := by
      split
      · cases ty <;> decide
      · exact hc
    refine ⟨hvd, hq, ?_, ?_, ?_, ?_, ?_, ?_, ?_⟩
    · exact sanitize_ne_nil (take_ne_nil hcat_ne (by norm_num [STR_LEN]))
    · rw [sanitize_length]
      calc ((if c0 = [] then defaultCategory ty else c0).take (STR_LEN - 1)).length
          ≤ STR_LEN - 1 := by rw [List.length_take]; omega
        _ = STR_LEN - 1 := rfl
    · exact sanitize_no_bar _
    · exact sanitize_no_newline
        (fun c hcc => hcat_nl c (List.take_subset _ _ hcc))
    · rw [sanitize_length]
      rw [List.length_take]
      omega
    · exact sanitize_no_bar _
    · exact sanitize_no_newline (fun c hcc => hn c (List.take_subset _ _ hcc))

lemma builtByAppend_length {s : List Transaction} (h : BuiltByAppend s) :
    s.length ≤ MAX_TRANSACTIONS := by
  induction h with
  | nil => simp
  | step s y m d ty c0 q n0 s2 hb hc hn hadd ih =>
    obtain ⟨hlen, -, -, hs2⟩ := add_transaction_ok hadd
    subst hs2
    simp only [List.length_append, List.length_singleton]
    omega

lemma builtByAppend_good {s : List Transaction} (h : BuiltByAppend s) :
    ∀ t ∈ s, AppendGood t := by
  induction h with
  | nil => intro t ht; simp at ht
  | step s y m d ty c0 q n0 s2 hb hc hn hadd ih =>
    intro t ht
    rcases add_transaction_good hadd hc hn t ht with hmem | hgood
    · exact ih t hmem
    · exact hgood

lemma txGood_of_appendGood {t : Transaction} (h : AppendGood t)
    (hden : (t.amount * 100).den = 1) : TxGood t := by
  obtain ⟨h1, h2, h3, h4, h5, h6, h7, h8, h9⟩ := h
  exact ⟨h1, le_of_lt h2, hden, h3, by simpa [STR_LEN] using h4, h5,
    by simpa [NOTE_LEN] using h7, h9⟩

/- ===================== lemmas: sorting ================================ -/

lemma cmp_date_nonpos_iff (x z : Transaction) : cmp_date x z ≤ 0 ↔ date_le x z := by
  unfold cmp_date date_le
  split_ifs <;> omega

lemma cmp_amount_desc_nonpos_iff (x z : Transaction) :
    cmp_amount_desc x z ≤ 0 ↔ amount_ge x z := by
  unfold cmp_amount_desc amount_ge
  split_ifs with h1 h2
  · constructor
    · intro h; norm_num at h
    · intro h; exact ((not_lt.mpr h) h1).elim
  · constructor
    · intro _; exact le_of_lt h2
    · intro _; norm_num
  · constructor
    · intro _; exact not_lt.mp h1
    · intro _; norm_num

lemma sorted_perm_unique {α : Type} {r : α → α → Prop} :
    ∀ (l1 l2 : List α), l1.Perm l2 → l1.Pairwise r → l2.Pairwise r →
      (∀ a ∈ l1, ∀ b ∈ l1, r a b → r b a → a = b) → l1 = l2 := by
  intro l1
  induction l1 with
  | nil =>
    intro l2 hp _ _ _
    exact (List.Perm.eq_nil hp.symm).symm
  | cons a t1 ih =>
    intro l2 hp h1 h2 hanti
    cases l2 with
    | nil => exact absurd (List.Perm.eq_nil hp) (by simp)
    | cons b t2 =>
      rcases List.pairwise_cons.mp h1 with ⟨h1a, h1t⟩
      rcases List.pairwise_cons.mp h2 with ⟨h2a, h2t⟩
      by_cases hab : a = b
      · subst hab
        rw [ih t2 hp.cons_inv h1t h2t
          (fun x hx y hy => hanti x (List.mem_cons_of_mem _ hx) y (List.mem_cons_of_mem _ hy))]
      · exfalso
        have hbmem : b ∈ a :: t1 := hp.mem_iff.mpr (List.mem_cons_self _ _)
        have hamem : a ∈ b :: t2 := hp.mem_iff.mp (List.mem_cons_self _ _)
        have hbt1 : b ∈ t1 := by
          rcases List.mem_cons.mp hbmem with h | h
          · exact absurd h.symm hab
          · exact h
        have hat2 : a ∈ t2 := by
          rcases List.mem_cons.mp hamem with h | h
          · exact absurd h hab
          · exact h
        exact hab (hanti a (List.mem_cons_self _ _) b (List.mem_cons_of_mem _ hbt1)
          (h1a b hbt1) (h2a a hat2))

/- ===================== lemmas: summary ================================ -/

lemma foldl_summaryStep :
    ∀ (s : List Transaction) (p : Rat × Rat),
      s.foldl summaryStep p = (p.1 + sumInc s, p.2 + sumExp s) := by
  intro s
  induction s with
  | nil => intro p; simp [sumInc, sumExp]
  | cons t rest ih =>
    intro p
    rw [List.foldl_cons, ih, sumInc, sumExp]
    cases hty : t.type with
    | INCOME =>
      have h1 : summaryStep p t = (p.1 + t.amount, p.2) := by
        rw [summaryStep, hty, if_pos rfl]
      rw [h1, if_pos rfl, if_neg (by decide : ¬(TxType.INCOME = TxType.EXPENSE)),
        Prod.mk.injEq]
      constructor
      · show p.1 + t.amount + sumInc rest = p.1 + (t.amount + sumInc rest)
        ring
      · show p.2 + sumExp rest = p.2 + (0 + sumExp rest)
        ring
    | EXPENSE =>
      have h1 : summaryStep p t = (p.1, p.2 + t.amount) := by
        rw [summaryStep, hty, if_neg (by decide)]
      rw [h1, if_neg (by decide : ¬(TxType.EXPENSE = TxType.INCOME)), if_pos rfl,
        Prod.mk.injEq]
      constructor
      · show p.1 + sumInc rest = p.1 + (0 + sumInc rest)
        ring
      · show p.2 + t.amount + sumExp rest = p.2 + (t.amount + sumExp rest)
        ring

lemma show_summary_spec (s : List Transaction) :
    show_summary s = (sumInc s, sumExp s, sumInc s - sumExp s) := by
  rw [show_summary, foldl_summaryStep]
  norm_num

lemma sumInc_append (s : List Transaction) (t : Transaction) :
    sumInc (s ++ [t]) = sumInc s + (if t.type = TxType.INCOME then t.amount else 0) := by
  induction s with
  | nil =>
    simp only [List.nil_append, sumInc]
    ring
  | cons a as ih =>
    rw [List.cons_append, sumInc, ih, sumInc]
    ring

lemma sumExp_append (s : List Transaction) (t : Transaction) :
    sumExp (s ++ [t]) = sumExp s + (if t.type = TxType.EXPENSE then t.amount else 0) := by
  induction s with
  | nil =>
    simp only [List.nil_append, sumExp]
    ring
  | cons a as ih =>
    rw [List.cons_append, sumExp, ih, sumExp]
    ring

/- ===================== lemmas: monthly chart ========================== -/

lemma monthSum_eq_zero (year : Int) (m : Nat) (s : List Transaction)
    (h : ∀ t ∈ s, ¬(t.type = TxType.EXPENSE ∧ t.y = year ∧ t.m = (m : Int))) :
    monthSum year m s = 0 := by
  induction s with
  | nil => rfl
  | cons t rest ih =>
    rw [monthSum, if_neg (h t (by simp)), ih (fun x hx => h x (by simp [hx]))]
    ring

lemma monthSum_nonneg (year : Int) (m : Nat) (s : List Transaction)
    (h : ∀ t ∈ s, 0 ≤ t.amount) : 0 ≤ monthSum year m s := by
  induction s with
  | nil => exact le_refl 0
  | cons t rest ih =>
    rw [monthSum]
    have h1 : 0 ≤ monthSum year m rest := ih (fun x hx => h x (by simp [hx]))
    have h2 : (0 : Rat)
        ≤ if t.type = TxType.EXPENSE ∧ t.y = year ∧ t.m = (m : Int) then t.amount else 0 := by
      split
      · exact h t (by simp)
      · exact le_refl 0
    linarith

lemma chartFold_apply :
    ∀ (s : List Transaction) (year : Int) (f : Nat → Rat) (m : Nat),
      1 ≤ m → m ≤ 12 → s.foldl (chartStep year) f m = f m + monthSum year m s := by
  intro s
  induction s with
  | nil => intro year f m _ _; rw [List.foldl_nil, monthSum]; ring
  | cons t rest ih =>
    intro year f m h1 h2
    rw [List.foldl_cons, ih year (chartStep year f t) m h1 h2, monthSum]
    have hstep : chartStep year f t m
        = f m + (if t.type = TxType.EXPENSE ∧ t.y = year ∧ t.m = (m : Int)
            then t.amount else 0) := by
      unfold chartStep
      by_cases hg : t.type = TxType.EXPENSE ∧ t.y = year ∧ 1 ≤ t.m ∧ t.m ≤ 12
      · obtain ⟨hgt, hgy, hgm1, hgm2⟩ := hg
        rw [if_pos ⟨hgt, hgy, hgm1, hgm2⟩]
        by_cases hm : m = t.m.toNat
        · show (if m = t.m.toNat then f m + t.amount else f m) = _
          rw [if_pos hm, if_pos ⟨hgt, hgy, by omega⟩]
        · show (if m = t.m.toNat then f m + t.amount else f m) = _
          rw [if_neg hm, if_neg ?_]
          · ring
          · rintro ⟨-, -, hc⟩
            exact hm (by omega)
      · rw [if_neg hg, if_neg ?_]
        · ring
        · rintro ⟨ha, hb, hc⟩
          exact hg ⟨ha, hb, by omega, by omega⟩
    rw [hstep]
    ring

lemma chart_sums_spec (s : List Transaction) (year : Int) (m : Nat)
    (h1 : 1 ≤ m) (h2 : m ≤ 12) :
    chart_sums s year m = monthSum year m s := by
  rw [chart_sums, chartFold_apply s year (fun _ => 0) m h1 h2]
  ring

lemma foldl_maxStep_init_le (sums : Nat → Rat) :
    ∀ (L : List Nat) (mx : Rat), mx ≤ L.foldl (maxStep sums) mx := by
  intro L
  induction L with
  | nil => intro mx; exact le_refl mx
  | cons a L ih =>
    intro mx
    rw [List.foldl_cons]
    refine le_trans ?_ (ih (maxStep sums mx a))
    unfold maxStep
    split
    · next h => exact le_of_lt h
    · exact le_refl mx

lemma foldl_maxStep_mem_le (sums : Nat → Rat) :
    ∀ (L : List Nat) (mx : Rat) (m : Nat), m ∈ L →
      sums m ≤ L.foldl (maxStep sums) mx := by
  intro L
  induction L with
  | nil => intro mx m hm; simp at hm
  | cons a L ih =>
    intro mx m hm
    rw [List.foldl_cons]
    rcases List.mem_cons.mp hm with h | h
    · subst h
      refine le_trans ?_ (foldl_maxStep_init_le sums L (maxStep sums mx m))
      unfold maxStep
      split
      · exact le_refl _
      · next hcond => exact not_lt.mp hcond
    · exact ih _ m h

lemma foldl_maxStep_cases (sums : Nat → Rat) :
    ∀ (L : List Nat) (mx : Rat),
      L.foldl (maxStep sums) mx = mx ∨ ∃ m ∈ L, L.foldl (maxStep sums) mx = sums m := by
  intro L
  induction L with
  | nil => intro mx; exact Or.inl rfl
  | cons a L ih =>
    intro mx
    rw [List.foldl_cons]
    rcases ih (maxStep sums mx a) with h | ⟨m, hm, h⟩
    · rw [h]
      unfold maxStep
      split
      · exact Or.inr ⟨a, by simp, rfl⟩
      · exact Or.inl rfl
    · exact Or.inr ⟨m, by simp [hm], h⟩

lemma foldl_add_sums (sums : Nat → Rat) :
    ∀ (L : List Nat) (a : Rat),
      L.foldl (fun x m2 => x + sums m2) a = a + (L.map sums).sum := by
  intro L
  induction L with
  | nil => intro a; simp
  | cons b L ih =>
    intro a
    rw [List.foldl_cons, ih, List.map_cons, List.sum_cons]
    ring

lemma chart_total_spec (sums : Nat → Rat) :
    chart_total sums = ((List.range' 1 12).map sums).sum := by
  rw [chart_total, foldl_add_sums]
  ring

lemma parseLine_category_eq (line : List Char) (t : Transaction)
    (hp : parseLine line = some t) : t.category = (scanLine line).category := by
  rw [parseLine] at hp
  by_cases h1 : 6 ≤ (scanLine line).matched
  · rw [if_pos h1] at hp
    by_cases h2 : valid_date (scanLine line).y (scanLine line).m (scanLine line).d = true
        ∧ 0 ≤ (scanLine line).amount
    · rw [if_pos h2] at hp
      simp only [Option.some.injEq] at hp
      rw [← hp]
    · rw [if_neg h2] at hp
      exact Option.noConfusion hp
  · rw [if_neg h1] at hp
    exact Option.noConfusion hp

/- ===================== the claims ===================================== -/

set_option maxRecDepth 10000

/-- Claim C1, amended: for every store built exclusively through `append`
whose amounts all have at most two decimal digits (amount × 100 is an
integer), `deserialize (serialize S)` yields exactly S's sequence of
transactions.  (As stated, the claim fails: `%.2f` rounds amounts with
more than two decimals, see the counterexample.) -/
theorem claim_C1_roundtrip (S : List Transaction) (hS : BuiltByAppend S)
    (hden : ∀ t ∈ S, (t.amount * 100).den = 1) :
    deserialize (save_to_file S) = S := by
  have hgood : ∀ t ∈ S, TxGood t := fun t ht =>
    txGood_of_appendGood (builtByAppend_good hS t ht) (hden t ht)
  rw [save_to_file, deserialize_eq,
    filterMap_save S (fun t ht => parseLine_save_line t (hgood t ht)),
    List.take_of_length_le (builtByAppend_length hS)]

unseal Rat.add Rat.sub Rat.mul Rat.inv in
/-- Witness for C1: a store with one appended transaction of amount 50.00
round-trips. -/
theorem claim_C1_roundtrip_witness :
    deserialize (save_to_file [scen1]) = [scen1] :=
  claim_C1_roundtrip [scen1]
    (BuiltByAppend.step [] 2025 1 15 TxType.EXPENSE ("Food".data) 50 [] [scen1]
      BuiltByAppend.nil (by decide) (by decide) (by decide))
    (by decide)

unseal Rat.add Rat.sub Rat.mul Rat.inv in
/-- Counterexample to C1 as stated: a store built exclusively through
`append` (amount 0.001 > 0, sanitized fields) does not round-trip, because
`%.2f` prints the amount as `0.00`. -/
theorem claim_C1_counterexample :
    add_transaction [] 2025 1 15 TxType.INCOME ("Food".data) (1 / 1000) []
        = Except.ok [milli]
      ∧ deserialize (save_to_file [milli]) ≠ [milli] := by
  constructor
  · decide
  · decide

/-- Claim C2, amended: `append` substitutes `'|'` with `'/'` in both
category and note (so it preserves the no-delimiter invariant), and a
category produced by `load` can never contain `'|'` (the `%63[^|]` scanset
stops at the delimiter); but `load` performs no substitution, and a loaded
note may contain `'|'` (see the counterexample). -/
theorem claim_C2_delimiter_invariant :
    (∀ s (y m d : Int) (ty : TxType) (c0 : List Char) (q : Rat) (n0 : List Char) s2,
        add_transaction s y m d ty c0 q n0 = Except.ok s2 →
        (∀ t ∈ s, '|' ∉ t.category ∧ '|' ∉ t.note) →
        ∀ t ∈ s2, '|' ∉ t.category ∧ '|' ∉ t.note)
    ∧ (∀ line t, parseLine line = some t → '|' ∉ t.category)
    ∧ (∀ lines t, t ∈ deserialize lines → '|' ∉ t.category) := by
  have hload : ∀ line t, parseLine line = some t → '|' ∉ t.category := by
    intro line t hp hmem
    rw [parseLine_category_eq line t hp] at hmem
    exact scanLine_category_ne line '|' hmem rfl
  refine ⟨?_, hload, ?_⟩
  · intro s y m d ty c0 q n0 s2 hadd hinv t ht
    obtain ⟨-, -, -, hs2⟩ := add_transaction_ok hadd
    subst hs2
    rcases List.mem_append.mp ht with hmem | hmem
    · exact hinv t hmem
    · rw [List.mem_singleton] at hmem
      subst hmem
      exact ⟨fun hb => sanitize_no_bar _ '|' hb rfl, fun hb => sanitize_no_bar _ '|' hb rfl⟩
  · intro lines t ht
    rw [deserialize_eq] at ht
    have ht2 := List.take_subset MAX_TRANSACTIONS _ ht
    obtain ⟨line, -, hp⟩ := List.mem_filterMap.mp ht2
    exact hload line t hp

unseal Rat.add Rat.sub Rat.mul Rat.inv in
/-- Witness for C2: appending to the empty store yields a store whose
category and note contain no delimiter. -/
theorem claim_C2_witness :
    ∀ t ∈ [scen1], '|' ∉ t.category ∧ '|' ∉ t.note :=
  claim_C2_delimiter_invariant.1 [] 2025 1 15 TxType.EXPENSE ("Food".data) 50 [] [scen1]
    (by decide) (by simp)

unseal Rat.add Rat.sub Rat.mul Rat.inv in
/-- Counterexample to C2 as stated: loading the line
`2025|1|15|1|Food|50.00|a|b` stores the note `a|b`, which contains the
delimiter — `load` does not substitute it. -/
theorem claim_C2_counterexample :
    deserialize [("2025|1|15|1|Food|50.00|a|b").data]
        = [⟨2025, 1, 15, TxType.EXPENSE, "Food".data, 50, ("a|b").data⟩]
      ∧ '|' ∈ (⟨2025, 1, 15, TxType.EXPENSE, "Food".data, 50,
          ("a|b").data⟩ : Transaction).note := by
  constructor
  · decide
  · decide

unseal Rat.add Rat.sub Rat.mul Rat.inv in
/-- Claim C3: a line is accepted iff its first six fields parse
(`matched ≥ 6`), the date is calendar-valid and the amount is ≥ 0; the
note defaults to empty when only six conversions succeed; failing lines
are silently skipped and loading replaces the whole store, capped at
`MAX_TRANSACTIONS`; the two-line scenario loads exactly one record. -/
theorem claim_C3_load_policy :
    (∀ lines, deserialize lines = (lines.filterMap parseLine).take MAX_TRANSACTIONS)
    ∧ (∀ line, (parseLine line).isSome = true ↔
        6 ≤ (scanLine line).matched ∧
          valid_date (scanLine line).y (scanLine line).m (scanLine line).d = true ∧
          0 ≤ (scanLine line).amount)
    ∧ (∀ line t, parseLine line = some t → (scanLine line).matched = 6 → t.note = [])
    ∧ (∀ store lines, load_from_file (some lines) store = (true, deserialize lines))
    ∧ deserialize [("2025|1|15|1|Food|50.00|lunch").data, ("abc|garbage").data]
        = [⟨2025, 1, 15, TxType.EXPENSE, "Food".data, 50, ("lunch").data⟩] := by
  refine ⟨deserialize_eq, parseLine_isSome, parseLine_note_default,
    fun store lines => rfl, ?_⟩
  decide

unseal Rat.add Rat.sub Rat.mul Rat.inv in
/-- Witness for C3: a concrete six-field line yields an empty note. -/
theorem claim_C3_witness :
    (⟨2025, 1, 15, TxType.EXPENSE, "Food".data, 50, []⟩ : Transaction).note = [] :=
  claim_C3_load_policy.2.2.1 (("2025|1|15|1|Food|50.00").data)
    ⟨2025, 1, 15, TxType.EXPENSE, "Food".data, 50, []⟩ (by decide) (by decide)

/-- Claim C4: for every store with spare capacity and every calendar-valid
date, `append` with amount 0 fails with `InvalidAmount`, while `load`
accepts a line whose amount field is `0.00` (and keeps all its fields). -/
theorem claim_C4_amount_asymmetry (s : List Transaction) (y m d : Int) (ty : TxType)
    (c0 n0 : List Char) (hcap : s.length < MAX_TRANSACTIONS)
    (hvd : valid_date y m d = true) :
    add_transaction s y m d ty c0 0 n0 = Except.error Err.InvalidAmount
      ∧ ∃ t, parseLine (zline y m d) = some t ∧ t.amount = 0 ∧ t.y = y ∧ t.m = m
          ∧ t.d = d ∧ t.type = TxType.EXPENSE := by
  constructor
  · rw [add_transaction, if_neg (by omega), if_neg (by simp [hvd]),
      if_pos (le_refl (0 : Rat))]
  · have hscan : scanLine (intRepr y ++ '|' :: (intRepr m ++ '|' :: (intRepr d ++ '|' ::
        (intRepr 1 ++ '|' :: (("Food").data ++ '|' ::
          (formatAmount2Nat 0 ++ '|' :: ("x").data))))))
        = ⟨7, y, m, d, 1, ("Food").data, ((0 : Nat) : Rat) / 100, ("x").data⟩ := by
      rw [scanLine_fmt y m d 1 0 (("Food").data) (("x").data)
        (by decide) (by decide) (by decide) (by decide) (by decide)]
      rw [if_neg (by decide : ¬(("x").data = []))]
    refine ⟨⟨y, m, d, TxType.EXPENSE, ("Food").data, ((0 : Nat) : Rat) / 100, ("x").data⟩,
      ?_, by norm_num, rfl, rfl, rfl, rfl⟩
    rw [zline, parseLine, hscan]
    simp [hvd]

/-- Witness for C4: the asymmetry at the concrete date 2025-01-15. -/
theorem claim_C4_witness :
    add_transaction [] 2025 1 15 TxType.EXPENSE (("Misc").data) 0 (("n").data)
        = Except.error Err.InvalidAmount
      ∧ ∃ t, parseLine (zline 2025 1 15) = some t ∧ t.amount = 0 ∧ t.y = 2025 ∧ t.m = 1
          ∧ t.d = 15 ∧ t.type = TxType.EXPENSE :=
  claim_C4_amount_asymmetry [] 2025 1 15 TxType.EXPENSE (("Misc").data) (("n").data)
    (by decide) (by decide)

/-- Claim C5, amended: every possible outcome of the date sort is a
permutation of the store that is pairwise ordered by (year, month, day)
ascending, and every outcome of the amount sort is a permutation pairwise
ordered by amount descending.  (As stated, the claim also asserted
stability, which C `qsort` does not guarantee — see the counterexample.) -/
theorem claim_C5_sort_order (l s : List Transaction) :
    (qsort_post cmp_date l s → s.Perm l ∧ s.Pairwise date_le)
    ∧ (qsort_post cmp_amount_desc l s → s.Perm l ∧ s.Pairwise amount_ge) := by
  constructor
  · rintro ⟨hperm, hpair⟩
    exact ⟨hperm.symm, hpair.imp (fun h => (cmp_date_nonpos_iff _ _).mp h)⟩
  · rintro ⟨hperm, hpair⟩
    exact ⟨hperm.symm, hpair.imp (fun h => (cmp_amount_desc_nonpos_iff _ _).mp h)⟩

/-- Witness for C5: a concrete sorted permutation of a two-element store. -/
theorem claim_C5_witness :
    ([tieB, tieA] : List Transaction).Perm [tieA, tieB]
      ∧ List.Pairwise date_le [tieB, tieA] :=
  (claim_C5_sort_order [tieA, tieB] [tieB, tieA]).1 (by decide)

/-- Counterexample to C5 as stated: neither sort is stable — `qsort` may
return the comparator-equal elements in either order, so there is a valid
output in which two equal-key transactions have swapped relative order. -/
theorem claim_C5_counterexample :
    ¬ sort_stable cmp_date ∧ ¬ sort_stable cmp_amount_desc := by
  constructor
  · intro h
    have h2 := h [tieA, tieB] [tieB, tieA] (by decide) tieA tieB (by decide) (by decide)
      (by decide) (by decide)
    exact absurd h2 (by decide)
  · intro h
    have h2 := h [tieA, tieB] [tieB, tieA] (by decide) tieA tieB (by decide) (by decide)
      (by decide) (by decide)
    exact absurd h2 (by decide)

/-- Claim C6, amended: each sort preserves the multiset of transactions
(no entry gained, lost or duplicated), and running a sort twice yields the
same order as running it once whenever the sort keys are pairwise
distinct.  (With tied keys a second `qsort` run may reorder the ties —
see the counterexample.) -/
theorem claim_C6_sort_multiset_idempotent :
    (∀ l s, qsort_post cmp_date l s → ∀ t, s.count t = l.count t)
    ∧ (∀ l s, qsort_post cmp_amount_desc l s → ∀ t, s.count t = l.count t)
    ∧ (∀ l s s2, qsort_post cmp_date l s → qsort_post cmp_date s s2 →
        (∀ a ∈ l, ∀ b ∈ l, a.y = b.y → a.m = b.m → a.d = b.d → a = b) → s2 = s)
    ∧ (∀ l s s2, qsort_post cmp_amount_desc l s → qsort_post cmp_amount_desc s s2 →
        (∀ a ∈ l, ∀ b ∈ l, a.amount = b.amount → a = b) → s2 = s) := by
  refine ⟨?_, ?_, ?_, ?_⟩
  · intro l s h t
    exact (h.1.count_eq t).symm
  · intro l s h t
    exact (h.1.count_eq t).symm
  · intro l s s2 h1 h2 hk
    refine (sorted_perm_unique s s2 h2.1 h1.2 h2.2 ?_).symm
    intro a ha b hb hab hba
    have ha2 : a ∈ l := h1.1.mem_iff.mpr ha
    have hb2 : b ∈ l := h1.1.mem_iff.mpr hb
    have h3 := (cmp_date_nonpos_iff a b).mp hab
    have h4 := (cmp_date_nonpos_iff b a).mp hba
    unfold date_le at h3 h4
    exact hk a ha2 b hb2 (by omega) (by omega) (by omega)
  · intro l s s2 h1 h2 hk
    refine (sorted_perm_unique s s2 h2.1 h1.2 h2.2 ?_).symm
    intro a ha b hb hab hba
    have ha2 : a ∈ l := h1.1.mem_iff.mpr ha
    have hb2 : b ∈ l := h1.1.mem_iff.mpr hb
    have h3 := (cmp_amount_desc_nonpos_iff a b).mp hab
    have h4 := (cmp_amount_desc_nonpos_iff b a).mp hba
    unfold amount_ge at h3 h4
    exact hk a ha2 b hb2 (le_antisymm h4 h3)

/-- Witness for C6: multiset preservation on a concrete sorted output. -/
theorem claim_C6_witness :
    ∀ t : Transaction, ([tieB, tieA] : List Transaction).count t
      = ([tieA, tieB] : List Transaction).count t :=
  claim_C6_sort_multiset_idempotent.1 [tieA, tieB] [tieB, tieA] (by decide)

/-- Counterexample to C6 as stated: with two equal-date transactions, a
second run of the date sort may produce a different order than the first,
so sorting twice is not guaranteed to yield the same order as once. -/
theorem claim_C6_counterexample : ¬ sort_idempotent cmp_date := by
  intro h
  have h2 := h [tieA, tieB] [tieA, tieB] [tieB, tieA] (by decide) (by decide)
  exact absurd h2 (by decide)

unseal Rat.add Rat.sub Rat.mul Rat.inv in
/-- Claim C7: for every store (all of whose amounts are nonnegative, as is
the case for every store the program can build) and every year, the chart
sums are exactly the per-month sums of Expense amounts of that year,
months without a matching expense sum to 0, the returned maximum bounds
and is attained by the 12 sums, the total is their sum, and no chart is
produced exactly when the maximum is 0; the three-append scenario yields
[50, 950, 0, ..., 0] with max 950 and total 1000. -/
theorem claim_C7_monthly_totals :
    (∀ (store : List Transaction) (year : Int), (∀ t ∈ store, 0 ≤ t.amount) →
      (∀ m, 1 ≤ m → m ≤ 12 → chart_sums store year m = monthSum year m store)
      ∧ (∀ m : Nat, 1 ≤ m → m ≤ 12 →
          (∀ t ∈ store, ¬(t.type = TxType.EXPENSE ∧ t.y = year ∧ t.m = (m : Int))) →
          chart_sums store year m = 0)
      ∧ (∀ m ∈ List.range' 1 12,
          chart_sums store year m ≤ chart_max (chart_sums store year))
      ∧ (∃ m ∈ List.range' 1 12,
          chart_max (chart_sums store year) = chart_sums store year m)
      ∧ chart_total (chart_sums store year)
          = ((List.range' 1 12).map (chart_sums store year)).sum
      ∧ (monthly_spending_chart store year = none
          ↔ chart_max (chart_sums store year) = 0))
    ∧ (add_transaction [] 2025 1 15 TxType.EXPENSE (("Food").data) 50 []
          = Except.ok [scen1]
      ∧ add_transaction [scen1] 2025 2 1 TxType.EXPENSE (("Rent").data) 950 []
          = Except.ok [scen1, scen2]
      ∧ add_transaction [scen1, scen2] 2025 1 20 TxType.INCOME (("Salary").data) 2000 []
          = Except.ok [scen1, scen2, scen3]
      ∧ (List.range' 1 12).map (chart_sums [scen1, scen2, scen3] 2025)
          = [50, 950, 0, 0, 0, 0, 0, 0, 0, 0, 0, 0]
      ∧ chart_max (chart_sums [scen1, scen2, scen3] 2025) = 950
      ∧ chart_total (chart_sums [scen1, scen2, scen3] 2025) = 1000) := by
  constructor
  · intro store year hnn
    refine ⟨fun m h1 h2 => chart_sums_spec store year m h1 h2, ?_, ?_, ?_,
      chart_total_spec _, ?_⟩
    · intro m h1 h2 hno
      rw [chart_sums_spec store year m h1 h2]
      exact monthSum_eq_zero year m store hno
    · intro m hm
      rw [chart_max]
      exact foldl_maxStep_mem_le (chart_sums store year) (List.range' 1 12) 0 m hm
    · rcases foldl_maxStep_cases (chart_sums store year) (List.range' 1 12) 0
        with h | ⟨m, hm, h⟩
      · refine ⟨1, by decide, ?_⟩
        have hub : chart_sums store year 1 ≤ 0 := by
          have hle := foldl_maxStep_mem_le (chart_sums store year)
            (List.range' 1 12) 0 1 (by decide)
          rw [h] at hle
          exact hle
        have hlb : 0 ≤ chart_sums store year 1 := by
          rw [chart_sums_spec store year 1 (by norm_num) (by norm_num)]
          exact monthSum_nonneg year 1 store hnn
        rw [chart_max, h]
        exact (le_antisymm hub hlb).symm
      · exact ⟨m, hm, by rw [chart_max, h]⟩
    · rw [monthly_spending_chart]
      split_ifs with h
      · simp [h]
      · simp [h]
  · refine ⟨by decide, by decide, by decide, by decide, by decide, by decide⟩

/-- Witness for C7: total equals the sum of the twelve monthly sums on the
scenario store. -/
theorem claim_C7_witness :
    chart_total (chart_sums [scen1, scen2, scen3] 2025)
      = ((List.range' 1 12).map (chart_sums [scen1, scen2, scen3] 2025)).sum :=
  ((claim_C7_monthly_totals.1 [scen1, scen2, scen3] 2025 (by decide)).2.2.2.2).1

/-- Claim C8: `summary()` returns the sum of Income amounts, the sum of
Expense amounts and their difference; on the empty store all three are
zero; appending one Income of amount A adds exactly A to totalIncome and
netSavings and leaves totalExpense unchanged. -/
theorem claim_C8_summary :
    (∀ store, show_summary store = (sumInc store, sumExp store, sumInc store - sumExp store))
    ∧ show_summary [] = (0, 0, 0)
    ∧ (∀ store (y m d : Int) (c0 n0 : List Char) (A : Rat) s2,
        add_transaction store y m d TxType.INCOME c0 A n0 = Except.ok s2 →
          (show_summary s2).1 = (show_summary store).1 + A
          ∧ (show_summary s2).2.1 = (show_summary store).2.1
          ∧ (show_summary s2).2.2 = (show_summary store).2.2 + A) := by
  refine ⟨show_summary_spec, ?_, ?_⟩
  · rw [show_summary_spec]
    norm_num [sumInc, sumExp]
  · intro store y m d c0 n0 A s2 h
    obtain ⟨-, -, -, hs2⟩ := add_transaction_ok h
    subst hs2
    rw [show_summary_spec, show_summary_spec, sumInc_append, sumExp_append]
    rw [if_pos rfl, if_neg (by decide : ¬(TxType.INCOME = TxType.EXPENSE))]
    refine ⟨by ring, by ring, by ring⟩

unseal Rat.add Rat.sub Rat.mul Rat.inv in
/-- Witness for C8: appending one Income of 2000 to the empty store. -/
theorem claim_C8_witness :
    (show_summary [scen3]).1 = (show_summary []).1 + 2000
    ∧ (show_summary [scen3]).2.1 = (show_summary []).2.1
    ∧ (show_summary [scen3]).2.2 = (show_summary []).2.2 + 2000 :=
  claim_C8_summary.2.2 [] 2025 1 20 (("Salary").data) [] 2000 [scen3] (by decide)

/-- Claim C9: when the backing file cannot be opened, `load_from_file`
reports failure and leaves the store unchanged; the store is replaced
(independently of its previous contents) only when the file opens. -/
theorem claim_C9_load_failure :
    (∀ store, load_from_file none store = (false, store))
    ∧ (∀ store lines, load_from_file (some lines) store = (true, deserialize lines))
    ∧ (∀ store store2 lines,
        (load_from_file (some lines) store).2 = (load_from_file (some lines) store2).2) :=
  ⟨fun _ => rfl, fun _ _ => rfl, fun _ _ _ => rfl⟩

unseal Rat.add Rat.sub Rat.mul Rat.inv in
/-- Claim C10: the kind field is not validated against {0, 1}: every line
whose first six fields parse with a valid date and nonnegative amount is
accepted whatever the kind integer is, and every kind other than exactly 1
loads as Income (e.g. 7 and -3), while kind 1 loads as Expense. -/
theorem claim_C10_kind_not_validated :
    (∀ line, 6 ≤ (scanLine line).matched →
        valid_date (scanLine line).y (scanLine line).m (scanLine line).d = true →
        0 ≤ (scanLine line).amount →
        ∃ t, parseLine line = some t
          ∧ t.type = (if (scanLine line).typeInt = 1 then TxType.EXPENSE
              else TxType.INCOME))
    ∧ (∃ t, parseLine (("2025|1|15|7|Food|50.00|x").data) = some t
        ∧ t.type = TxType.INCOME)
    ∧ (∃ t, parseLine (("2025|1|15|-3|Food|50.00|x").data) = some t
        ∧ t.type = TxType.INCOME)
    ∧ (∃ t, parseLine (("2025|1|15|1|Food|50.00|x").data) = some t
        ∧ t.type = TxType.EXPENSE) := by
  refine ⟨?_, ?_, ?_, ?_⟩
  · intro line h6 hv ha
    exact ⟨_, parseLine_some_of line h6 hv ha, rfl⟩
  · exact ⟨⟨2025, 1, 15, TxType.INCOME, ("Food").data, 50, ("x").data⟩, by decide, rfl⟩
  · exact ⟨⟨2025, 1, 15, TxType.INCOME, ("Food").data, 50, ("x").data⟩, by decide, rfl⟩
  · exact ⟨⟨2025, 1, 15, TxType.EXPENSE, ("Food").data, 50, ("x").data⟩, by decide, rfl⟩

unseal Rat.add Rat.sub Rat.mul Rat.inv in
/-- Witness for C10: the acceptance rule applied to a concrete line with
kind 9, which loads as Income. -/
theorem claim_C10_witness :
    ∃ t, parseLine (("2025|1|15|9|Food|50.00|x").data) = some t
      ∧ t.type = (if (scanLine (("2025|1|15|9|Food|50.00|x").data)).typeInt = 1
          then TxType.EXPENSE else TxType.INCOME) :=
  claim_C10_kind_not_validated.1 (("2025|1|15|9|Food|50.00|x").data)
    (by decide) (by decide) (by decide)

end FinanceTracker
